import Mathlib

/-!
Shallow embedding of the saju-api-server core: the solar-term table generator
(`tools/generate_jieqi_table.py`) and the four-pillars engine (`main.py`).

Conventions used throughout the embedding:

* Python integers are `Int`.  All `//` and `%` in the sources have positive
  divisors, where Python's floor division and floor modulus agree with Lean's
  `/` and `%` on `Int` (`Int.ediv` / `Int.emod`), so those are used.
* Instants are integer minutes on a linear time scale whose day index is the
  Julian Day Number: minute `j * 1440 + k` is minute `k` (from 00:00) of the
  civil day with JDN `j`.  `main.py` works in KST civil time, the generator in
  UTC; KST = UTC + 540 minutes.
* Angles in the generator are rationals measured in degrees.  The Python source
  computes in radians; the embedding rescales every angle by `180 / π`, an
  order-, zero- and sign-preserving bijection under which `TAU ↦ 360` and
  `math.pi ↦ 180`, so every comparison and branch of the source is preserved.
* Python `raise` inside a function consumed by a `try`/`except` boundary is
  `Except String`.
-/

/-- `gregorian_to_jdn` from `main.py`: the standard Gregorian date → Julian Day
Number formula. -/
def gregorian_to_jdn (y m d : Int) : Int :=
  let a := (14 - m) / 12
  let y2 := y + 4800 - a
  let m2 := m + 12 * a - 3
  d + (153 * m2 + 2) / 5 + 365 * y2 + y2 / 4 - y2 / 100 + y2 / 400 - 32045

/-- Standard civil-from-day-count algorithm (inverse of the Gregorian → day
count map), input measured in days since 1970-01-01; used to read the calendar
year of an instant, mirroring Python's `datetime.year` after time-zone
conversion. -/
def civilFromDays (z0 : Int) : Int × Int × Int :=
  let z := z0 + 719468
  let era := z / 146097
  let doe := z - era * 146097
  let yoe := (doe - doe / 1460 + doe / 36524 - doe / 146096) / 365
  let y := yoe + era * 400
  let doy := doe - (365 * yoe + yoe / 4 - yoe / 100)
  let mp := (5 * doy + 2) / 153
  let d := doy - (153 * mp + 2) / 5 + 1
  let m := mp + (if mp < 10 then 3 else -9)
  (y + (if m ≤ 2 then 1 else 0), m, d)

/-- Calendar year of the civil day with Julian Day Number `j`
(`gregorian_to_jdn 1970 1 1 = 2440588`). -/
def yearOfJdn (j : Int) : Int := (civilFromDays (j - 2440588)).1

/-- UTC instant (in minutes, day index = JDN) of a given UTC civil date-time:
`_dt_utc` of the generator. -/
def utcMin (y m d hh mm : Int) : Int := gregorian_to_jdn y m d * 1440 + hh * 60 + mm

/-- Local (UTC+9) calendar year of a UTC instant: `dt.astimezone(KST).year`. -/
def kstYear (t : Int) : Int := yearOfJdn ((t + 540) / 1440)

/-- KST instant (in minutes, day index = JDN) of a KST civil date-time, as
`main.py` builds `birth_dt = datetime(y, m, d, hh, mm, tzinfo=KST)`. -/
def kstMin (y m d hh mm : Int) : Int := gregorian_to_jdn y m d * 1440 + hh * 60 + mm

/-! ## `main.py`: stem/branch tables and the day/year pillars -/

def STEMS : List String := ["甲","乙","丙","丁","戊","己","庚","辛","壬","癸"]

def BRANCHES : List String :=
  ["子","丑","寅","卯","辰","巳","午","未","申","酉","戌","亥"]

/-- `STEMS[i]` for a (always in-range in the source) integer index. -/
def stemAt (i : Int) : String := STEMS.getD i.toNat ""

/-- `BRANCHES[i]` for a (always in-range in the source) integer index. -/
def branchAt (i : Int) : String := BRANCHES.getD i.toNat ""

/-- The invariant of C10: a (stem, branch) pair is sexagenary when both
symbols are jointly derivable from one index in [0, 60) — `stem = STEMS[n mod
10]` and `branch = BRANCHES[n mod 12]` for a single `n`.  Only 60 of the 120
combinations satisfy this. -/
def isSexagenaryPair (stem branch : String) : Prop :=
  ∃ n : Fin 60, stem = STEMS.getD ((n : Nat) % 10) "" ∧
    branch = BRANCHES.getD ((n : Nat) % 12) ""

instance decIsSexagenaryPair (stem branch : String) : Decidable (isSexagenaryPair stem branch) :=
  inferInstanceAs (Decidable (∃ n : Fin 60, stem = STEMS.getD ((n : Nat) % 10) "" ∧
    branch = BRANCHES.getD ((n : Nat) % 12) ""))

/-- A pillar dict carrying `index60`, as returned by `get_day_pillar` and
`get_year_pillar`. -/
structure PillarIdx where
  stem : String
  branch : String
  ganji : String
  index60 : Int
deriving Repr, DecidableEq

/-- A pillar dict without `index60`, as returned by `get_month_pillar` and
`get_hour_pillar`. -/
structure Pillar where
  stem : String
  branch : String
  ganji : String
deriving Repr, DecidableEq

/-- `get_day_pillar` from `main.py` (on the birth date's year/month/day). -/
def get_day_pillar (y m d : Int) : PillarIdx :=
  let idx := (gregorian_to_jdn y m d + 47) % 60
  { stem := stemAt (idx % 10), branch := branchAt (idx % 12),
    ganji := stemAt (idx % 10) ++ branchAt (idx % 12), index60 := idx }

/-- `get_year_pillar` from `main.py`. -/
def get_year_pillar (year : Int) : PillarIdx :=
  let idx := (year - 1984) % 60
  { stem := stemAt (idx % 10), branch := branchAt (idx % 12),
    ganji := stemAt (idx % 10) ++ branchAt (idx % 12), index60 := idx }

/-! ## `main.py`: jieqi table items and lookups

A stored item is modelled with its `name` and the already-parsed instants of
its optional `"kst"` / `"utc"` fields (`_parse_dt_any` parses the stored ISO
strings and converts to KST; `none` models a missing or unparseable field). -/

structure Item where
  name : String
  kst : Option Int
  utc : Option Int
deriving Repr, DecidableEq

/-- `_pick_item_dt`: try the `"kst"` field, then the `"utc"` field. -/
def _pick_item_dt (i : Item) : Option Int := i.kst.or i.utc

/-- `find_ipchun_dt`: the parsed instant of the first item named 입춘/立春;
raises when no such item exists.  (When the item exists but carries no
parseable instant the Python function returns `None`, which then blows up the
caller's comparison; hence the `Option` in the `ok` payload.) -/
def find_ipchun_dt (l : List Item) : Except String (Option Int) :=
  match l.find? (fun i => i.name == "입춘" || i.name == "立春") with
  | some i => .ok (_pick_item_dt i)
  | none => .error "ipchun not found"

/-- `get_jieqi_with_fallback`: look the year key up in the loaded table; a
missing key or a falsy (empty) value raises, anything else is returned as is. -/
def get_jieqi_with_fallback (table : String → Option (List Item)) (year : String) :
    Except String (String × Bool × List Item) :=
  match table year with
  | none => .error "No jieqi for year"
  | some [] => .error "No jieqi for year"
  | some (i :: l) => .ok ("json", true, i :: l)

/-- `_jieqi_term_dt_map` as a lookup function: the dict maps each non-empty
name that occurs with a parseable instant to the instant of its *last* such
occurrence (later dict insertions overwrite earlier ones). -/
def _jieqi_term_dt_map (l : List Item) (name : String) : Option Int :=
  if name = "" then none
  else (l.filterMap (fun i => if i.name == name then _pick_item_dt i else none)).getLast?

/-! ## `main.py`: month pillar -/

def MONTH_TERM_TO_BRANCH : List (String × String) :=
  [("입춘","寅"),("경칩","卯"),("청명","辰"),("입하","巳"),("망종","午"),("소서","未"),
   ("입추","申"),("백로","酉"),("한로","戌"),("입동","亥"),("대설","子"),("소한","丑")]

/-- `YEAR_STEM_TO_YIN_MONTH_STEM` dict from `main.py`. -/
def YEAR_STEM_TO_YIN_MONTH_STEM (s : String) : Option String :=
  if s = "甲" then some "丙" else if s = "己" then some "丙"
  else if s = "乙" then some "戊" else if s = "庚" then some "戊"
  else if s = "丙" then some "庚" else if s = "辛" then some "庚"
  else if s = "丁" then some "壬" else if s = "壬" then some "壬"
  else if s = "戊" then some "甲" else if s = "癸" then some "甲"
  else none

def MONTH_BRANCH_SEQ : List String :=
  ["寅","卯","辰","巳","午","未","申","酉","戌","亥","子","丑"]

/-- `boundary_next_midnight` (instants are KST minutes): 00:00 KST of the day
after the KST date of `t`. -/
def boundary_next_midnight (t : Int) : Int := (t / 1440 + 1) * 1440

/-- The candidate list `_get_month_branch_from_terms` builds:
`(boundary instant, branch, term label)` for each of the 12 month terms found
in this year's map, plus the previous year's 대설 mapped to 子. -/
def monthCandidates (thisT prevT : String → Option Int) : List (Int × String × String) :=
  (MONTH_TERM_TO_BRANCH.filterMap fun tb =>
    (thisT tb.1).map fun dt => (boundary_next_midnight dt, tb.2, tb.1)) ++
  (match prevT "대설" with
   | some dt => [(boundary_next_midnight dt, "子", "대설(prev)")]
   | none => [])

/-- Stable insertion of a candidate into a boundary-sorted list: the new
element goes in front of the first element whose boundary is not smaller. -/
def insertByKey (x : Int × String × String) :
    List (Int × String × String) → List (Int × String × String)
  | [] => [x]
  | y :: ys => if y.1 < x.1 then y :: insertByKey x ys else x :: y :: ys

/-- Stable ascending sort by boundary instant, modelling Python's stable
`list.sort(key=lambda x: x[0])`. -/
def sortByKey : List (Int × String × String) → List (Int × String × String)
  | [] => []
  | x :: xs => insertByKey x (sortByKey xs)

/-- `_get_month_branch_from_terms`: keep the candidates whose boundary is at or
before the birth instant; if none survive return 丑, otherwise the branch of
the last candidate after the stable sort by boundary. -/
def _get_month_branch_from_terms (birth : Int) (thisT prevT : String → Option Int) : String :=
  let valid := (monthCandidates thisT prevT).filter (fun c => decide (c.1 ≤ birth))
  match (sortByKey valid).getLast? with
  | none => "丑"
  | some c => c.2.1

/-- `get_month_pillar` from `main.py`.  (`MONTH_BRANCH_SEQ.index` /
`STEMS.index` are total here via `List.indexOf`; the looked-up elements are
always present in the source's calls, which is proved where needed.) -/
def get_month_pillar (birth : Int) (yearP : PillarIdx) (jThis jPrev : List Item) :
    Except String Pillar :=
  let mb := _get_month_branch_from_terms birth
    (_jieqi_term_dt_map jThis) (_jieqi_term_dt_map jPrev)
  match YEAR_STEM_TO_YIN_MONTH_STEM yearP.stem with
  | none => .error "Invalid year stem for month pillar"
  | some yin =>
    let si := (STEMS.indexOf yin + MONTH_BRANCH_SEQ.indexOf mb) % 10
    .ok { stem := STEMS.getD si "", branch := mb, ganji := STEMS.getD si "" ++ mb }

/-! ## `main.py`: hour pillar -/

def HOUR_BRANCH_SEQ : List String :=
  ["子","丑","寅","卯","辰","巳","午","未","申","酉","戌","亥"]

/-- `DAY_STEM_TO_ZI_HOUR_STEM` dict from `main.py`. -/
def DAY_STEM_TO_ZI_HOUR_STEM (s : String) : Option String :=
  if s = "甲" then some "甲" else if s = "己" then some "甲"
  else if s = "乙" then some "丙" else if s = "庚" then some "丙"
  else if s = "丙" then some "戊" else if s = "辛" then some "戊"
  else if s = "丁" then some "庚" else if s = "壬" then some "庚"
  else if s = "戊" then some "壬" else if s = "癸" then some "壬"
  else none

/-- `_get_hour_branch`: two-hour block of the local time of day, counted from
the 23:00 block. -/
def _get_hour_branch (hh mm : Int) : String :=
  let total := hh * 60 + mm
  let shifted := (total - 23 * 60) % (24 * 60)
  let idx := shifted / 120
  HOUR_BRANCH_SEQ.getD idx.toNat ""

/-- `get_hour_pillar` from `main.py`. -/
def get_hour_pillar (dayP : PillarIdx) (hh mm : Int) : Except String Pillar :=
  let hb := _get_hour_branch hh mm
  match DAY_STEM_TO_ZI_HOUR_STEM dayP.stem with
  | none => .error "Invalid day stem for hour pillar"
  | some zi =>
    let si := (STEMS.indexOf zi + HOUR_BRANCH_SEQ.indexOf hb) % 10
    .ok { stem := STEMS.getD si "", branch := hb, ganji := STEMS.getD si "" ++ hb }

/-! ## `main.py`: the `/api/saju/calc` pipeline -/

/-- The `(hh, mm)` the endpoint uses: the parsed `birth_time`, defaulting to
00:00 when `birth_time` is `"unknown"`. -/
def hhmmOf (bt : Option (Int × Int)) : Int × Int :=
  match bt with
  | some t => t
  | none => (0, 0)

/-- The result record assembled by `calc_saju` (the pillars plus the
`saju_year` debug field; transport-only fields are omitted). -/
structure CalcRes where
  yearP : PillarIdx
  monthP : Pillar
  dayP : PillarIdx
  hourP : Option Pillar
  sajuYear : Int
deriving Repr, DecidableEq

/-- `calc_saju` from `main.py`, for an already-parsed birth date `y-m-d` and
optional time of day (`none` models `birth_time="unknown"`); `table` is the
loaded year-keyed jieqi table.  Any uncaught Python exception inside the
handler (surfaced as a 500 response) is an `error`. -/
def calc_saju (y m d : Int) (bt : Option (Int × Int))
    (table : String → Option (List Item)) : Except String CalcRes :=
  match get_jieqi_with_fallback table (toString y) with
  | .error e => .error e
  | .ok (_src, _fb, jThis) =>
    match find_ipchun_dt jThis with
    | .error e => .error e
    | .ok none => .error "TypeError: comparison with None"
    | .ok (some ipchun) =>
      match get_jieqi_with_fallback table (toString (y - 1)) with
      | .error e => .error e
      | .ok (_s2, _f2, jPrev) =>
        match get_month_pillar (kstMin y m d (hhmmOf bt).1 (hhmmOf bt).2)
            (get_year_pillar (if kstMin y m d (hhmmOf bt).1 (hhmmOf bt).2 ≥ ipchun then y
                              else y - 1)) jThis jPrev with
        | .error e => .error e
        | .ok monthP =>
          match bt with
          | none =>
            .ok { yearP := get_year_pillar (if kstMin y m d (hhmmOf bt).1 (hhmmOf bt).2 ≥ ipchun
                             then y else y - 1),
                  monthP := monthP, dayP := get_day_pillar y m d, hourP := none,
                  sajuYear := if kstMin y m d (hhmmOf bt).1 (hhmmOf bt).2 ≥ ipchun then y
                              else y - 1 }
          | some _ =>
            match get_hour_pillar (get_day_pillar y m d) (hhmmOf bt).1 (hhmmOf bt).2 with
            | .error e => .error e
            | .ok hp =>
              .ok { yearP := get_year_pillar (if kstMin y m d (hhmmOf bt).1 (hhmmOf bt).2 ≥ ipchun
                               then y else y - 1),
                    monthP := monthP, dayP := get_day_pillar y m d, hourP := some hp,
                    sajuYear := if kstMin y m d (hhmmOf bt).1 (hhmmOf bt).2 ≥ ipchun then y
                                else y - 1 }

/-! ## `tools/generate_jieqi_table.py`: the crossing finder

Angles are `ℚ` degrees (see the header); time inside the root finder is `ℚ`
hours (Python bisects `datetime`s, whose microsecond grid is fine enough that
exact halving is the faithful idealisation).  The longitude signal
`sun_ecliptic_lon_rad` is a parameter `lon : ℚ → ℚ`, the injected ephemeris
provider capability. -/

/-- Python `%` on rationals (used by the source as `x % TAU`): floor modulus. -/
def qmod (a b : ℚ) : ℚ := a - b * (⌊a / b⌋ : ℤ)

/-- `_wrap_diff`: signed smallest difference `a - b` wrapped to (−180, 180]
(the source's (−π, π], in degrees). -/
def _wrap_diff (a b : ℚ) : ℚ :=
  let d := qmod (a - b) 360
  if 180 < d then d - 360 else d

/-- `JIEQI_SCAN_STEP_HOURS` default. -/
def SCAN_STEP_HOURS : ℚ := 3

/-- `JIEQI_BISECT_ITERS` default. -/
def BISECT_ITERS : Nat := 50

/-- The coarse sample grid `dts` of `find_crossings_for_deg`: `start`,
`start+step`, … (every point < `end`), with `end` appended — exactly the
source's while-loop followed by the final append, for `start < end`. -/
def coarseGrid (startT endT step : ℚ) : List ℚ :=
  ((List.range (⌈(endT - startT) / step⌉.toNat)).map fun i => startT + step * i) ++ [endT]

/-- Consecutive pairs `(dts[i], dts[i+1])` of a list. -/
def adjPairs (l : List ℚ) : List (ℚ × ℚ) := l.zip l.tail

/-- The bisection loop body of `find_crossings_for_deg`, returning the final
bracket `(t0, t1)` after the iteration budget (or the early exact-hit exit). -/
def bisect_iter (lon : ℚ → ℚ) (target : ℚ) : Nat → ℚ → ℚ → ℚ × ℚ
  | 0, t0, t1 => (t0, t1)
  | n + 1, t0, t1 =>
    let mid := t0 + (t1 - t0) / 2
    let dMid := _wrap_diff (lon mid) target
    if dMid = 0 then (mid, mid)
    else
      let dT0 := _wrap_diff (lon t0) target
      if (dT0 < 0 ∧ 0 < dMid) ∨ (0 < dT0 ∧ dMid < 0) then bisect_iter lon target n t0 mid
      else bisect_iter lon target n mid t1

/-- The hit an accepted bracket contributes: the midpoint of the final
bisection bracket. -/
def bisect_hit (lon : ℚ → ℚ) (target t0 t1 : ℚ) : ℚ :=
  let r := bisect_iter lon target BISECT_ITERS t0 t1
  r.1 + (r.2 - r.1) / 2

/-- `find_crossings_for_deg`: coarse scan of `[start, end)` at the configured
step, then for each adjacent sample pair an exact hit (`d0 = 0`) or, on a sign
change of the wrapped difference, a bisection hit. -/
def find_crossings_for_deg (lon : ℚ → ℚ) (target startT endT : ℚ) : List ℚ :=
  (adjPairs (coarseGrid startT endT SCAN_STEP_HOURS)).filterMap fun p =>
    let d0 := _wrap_diff (lon p.1) target
    let d1 := _wrap_diff (lon p.2) target
    if d0 = 0 then some p.1
    else if (d0 < 0 ∧ 0 < d1) ∨ (0 < d0 ∧ d1 < 0) then some (bisect_hit lon target p.1 p.2)
    else none

/-! ## `tools/generate_jieqi_table.py`: timeline events, slicing, the store -/

/-- The 24 solar terms and their target degrees (`JIEQI` in the source). -/
def JIEQI : List (String × Nat) :=
  [("춘분",0),("청명",15),("곡우",30),("입하",45),("소만",60),("망종",75),
   ("하지",90),("소서",105),("대서",120),("입추",135),("처서",150),("백로",165),
   ("추분",180),("한로",195),("상강",210),("입동",225),("소설",240),("대설",255),
   ("동지",270),("소한",285),("대한",300),("입춘",315),("우수",330),("경칩",345)]

/-- A timeline event `(dt_hit, name, deg)` as assembled by
`collect_events_timeline` (instant in UTC minutes). -/
structure GEvent where
  utc : Int
  name : String
  deg : Nat
deriving Repr, DecidableEq

/-- A stored table entry as written by `slice_24_from_ipchun` (`utc` and `kst`
are the same instant; `kst` carries the +540-minute local offset on this
embedding's linear time scale). -/
structure GOut where
  name : String
  deg : Nat
  utc : Int
  kst : Int
deriving Repr, DecidableEq

/-- First index satisfying a predicate — the `for i, e in enumerate(events)`
search loop with `break` in `slice_24_from_ipchun`. -/
def firstIdxWhere (p : GEvent → Bool) : List GEvent → Option Nat
  | [] => none
  | e :: es => if p e then some 0 else (firstIdxWhere p es).map (· + 1)

/-- `slice_24_from_ipchun`: find the first 입춘 (deg 315) event whose KST year
is the target year, take the 24 consecutive events from it, and accept them
only if there are 24 with 24 distinct degrees. -/
def slice_24_from_ipchun (events : List GEvent) (targetYear : Int) : Option (List GOut) :=
  match firstIdxWhere (fun e => e.deg == 315 && kstYear e.utc == targetYear) events with
  | none => none
  | some idx =>
    if ((events.drop idx).take 24).length ≠ 24 then none
    else if (((events.drop idx).take 24).map (fun e => e.deg)).dedup.length ≠ 24 then none
    else some (((events.drop idx).take 24).map fun e =>
      { name := e.name, deg := e.deg, utc := e.utc, kst := e.utc + 540 })

/-- `JIEQI_EPH_MARGIN_DAYS` default. -/
def EPH_MARGIN_DAYS : Int := 7

/-- Lower bound of the clamped search range (DE421 start + margin). -/
def eph_min : Int := utcMin 1899 7 29 0 0 + EPH_MARGIN_DAYS * 1440

/-- Upper bound of the clamped search range (DE421 end − margin). -/
def eph_max : Int := utcMin 2053 10 9 0 0 - EPH_MARGIN_DAYS * 1440

/-- `clamp_range`: clamp the window into the ephemeris safe range; a degenerate
clamped window raises `RuntimeError`. -/
def clamp_range (startT endT : Int) : Except String (Int × Int) :=
  let s := if startT < eph_min then eph_min else startT
  let e := if endT > eph_max then eph_max else endT
  if s ≥ e then .error "Clamped range invalid" else .ok (s, e)

/-- `collect_events_timeline`, with the numerical scanning stage abstracted:
`scan y` stands for the sorted, deduplicated crossing-event list the scanner
produces for year `y`'s clamped two-year window.  The window construction and
clamping — and the `RuntimeError` the clamp raises, which propagates out of
this function — are embedded exactly; the claims settled against this
definition concern only that control flow, never the numerical values of
`scan`. -/
def collect_events_timeline (scan : Int → List GEvent) (y : Int) :
    Except String (List GEvent) :=
  match clamp_range (utcMin (y - 1) 3 1 0 0) (utcMin (y + 1) 3 1 0 0) with
  | .error e => .error e
  | .ok _ => .ok (scan y)

/-- `range(START_YEAR, END_YEAR + 1)` of the generator's main loop. -/
def yearsRange (s e : Int) : List Int := (List.range (e + 1 - s).toNat).map (fun i => s + i)

/-- Stable insertion for the final per-year `sliced.sort(key=lambda x: x["kst"])`. -/
def insertByKst (x : GOut) : List GOut → List GOut
  | [] => [x]
  | y :: ys => if y.kst < x.kst then y :: insertByKst x ys else x :: y :: ys

/-- Stable ascending sort of a year's entries by their `kst` instant (the ISO
strings the source compares are lexicographically ordered exactly as the
instants are). -/
def sortByKst : List GOut → List GOut
  | [] => []
  | x :: xs => insertByKst x (sortByKst xs)

/-- The value stored under a year's key by the `generate` loop: the sorted
slice on success, the empty list when the slice fails. -/
def storeYear (events : List GEvent) (y : Int) : List GOut :=
  match slice_24_from_ipchun events y with
  | none => []
  | some out => sortByKst out

/-- One iteration of the `generate` loop on the accumulated
`(result entries, bad_years)` state: collect the year's timeline (the clamp
`RuntimeError` propagates), slice it, store either the sorted slice or an
empty list, and record the year in `bad_years` on failure. -/
def generate_step (scan : Int → List GEvent)
    (acc : List (String × List GOut) × List Int) (y : Int) :
    Except String (List (String × List GOut) × List Int) :=
  match collect_events_timeline scan y with
  | .error e => .error e
  | .ok events =>
    match slice_24_from_ipchun events y with
    | none => .ok (acc.1 ++ [(toString y, [])], acc.2 ++ [y])
    | some out =>
      .ok (acc.1 ++ [(toString y, sortByKst out)],
           if (sortByKst out).length ≠ 24 then acc.2 ++ [y] else acc.2)

/-- The store-building loop of `generate`: one pass over the year range,
accumulating the in-memory `result` dict (in insertion order) and the
`bad_years` list; a clamp `RuntimeError` raised inside
`collect_events_timeline` propagates and aborts the whole loop, exactly as in
the source. -/
def generate_run (startY endY : Int) (scan : Int → List GEvent) :
    Except String (List (String × List GOut) × List Int) :=
  (yearsRange startY endY).foldlM (generate_step scan) ([], [])

/-- The sequence of store-file write operations a `generate` run performs: the
`result` dict is held in memory for the whole run and written exactly once, at
the end, with a plain `open(OUTPUT_PATH, "w")` — the prior store contents are
never read (`prior` is unused), nothing is written per year or to a temporary
file, and the `JIEQI_APPEND` environment variable set by `main.py` is never
read by the generator.  A run aborted by the clamp `RuntimeError` writes
nothing. -/
def generate_writes (startY endY : Int) (scan : Int → List GEvent)
    (_prior : List (String × List GOut)) : List (List (String × List GOut)) :=
  match generate_run startY endY scan with
  | .error _ => []
  | .ok r => [r.1]

/-! ## Concrete inputs used by witnesses and counterexamples -/

/-- The spec's synthetic ephemeris substitute: a strictly increasing linear
longitude model at 1°/day (time in hours), wrapped into [0, 360). -/
def lonLin (t : ℚ) : ℚ := qmod (t / 24) 360

/-- A realistic timeline for building year 2000, as produced by a correct scan
of the generator's two-year window: the 24 terms from the year-2000 입춘
(2000-02-04 10:00 UTC, 19:00 KST) onwards, spaced 15 days apart, so the last
two terms (소한, 대한) fall in January 2001 — exactly as the real 24-term
sequence starting at a year's 입춘 does. -/
def events2000 : List GEvent :=
  (List.range 24).map fun (k : Nat) =>
    { utc := utcMin 2000 2 4 10 0 + (k : Int) * 15 * 1440,
      deg := ((315 + 15 * k) % 360 : Nat),
      name := ((JIEQI.find? (fun t => t.2 == (315 + 15 * k) % 360)).map (fun t => t.1)).getD "" }

/-- A loaded jieqi table whose year-2000 entry has a single item (입춘) and
whose year-1999 entry has a single item (대설): far from the 24 entries the
consumption contract asks for. -/
def shortTable : String → Option (List Item) := fun y =>
  if y = "2000" then some [{ name := "입춘", kst := some (kstMin 2000 2 4 20 40), utc := none }]
  else if y = "1999" then some [{ name := "대설", kst := some (kstMin 1999 12 7 12 0), utc := none }]
  else none

/-- A scanner oracle producing no events at all (every year's slice fails). -/
def scan0 : Int → List GEvent := fun _ => []

/-- A two-term current-year table for exercising the month pillar. -/
def jThisEx : List Item :=
  [{ name := "입춘", kst := some (kstMin 2000 2 4 20 40), utc := none },
   { name := "경칩", kst := some (kstMin 2000 3 5 14 0), utc := none }]

/-- A one-term previous-year table for exercising the month pillar. -/
def jPrevEx : List Item :=
  [{ name := "대설", kst := some (kstMin 1999 12 7 12 0), utc := none }]

/-! ## Utilities for stating and proving the claims -/

/-- Whether an `Except` computation succeeded. -/
def exceptIsOk {α : Type} : Except String α → Bool
  | .ok _ => true
  | .error _ => false

/-- The error message of a failed `Except` computation, if any. -/
def exceptErr {α : Type} : Except String α → Option String
  | .ok _ => none
  | .error e => some e

theorem exceptIsOk_iff {α : Type} (x : Except String α) :
    exceptIsOk x = true ↔ ∃ v, x = .ok v := by
  cases x <;> simp [exceptIsOk]

theorem exceptToOption_eq {α : Type} (e : Except String α) (x : α) :
    e.toOption = some x ↔ e = .ok x := by
  cases e <;> simp [Except.toOption]

theorem insertByKst_length (x : GOut) (l : List GOut) :
    (insertByKst x l).length = l.length + 1 := by
  induction l with
  | nil => rfl
  | cons y ys ih =>
    unfold insertByKst
    split
    · simp [ih]
    · simp

theorem sortByKst_length (l : List GOut) : (sortByKst l).length = l.length := by
  induction l with
  | nil => rfl
  | cons x xs ih => simp [sortByKst, insertByKst_length, ih]

theorem slice_24_length (events : List GEvent) (y : Int) (out : List GOut)
    (h : slice_24_from_ipchun events y = some out) : out.length = 24 := by
  unfold slice_24_from_ipchun at h
  split at h
  · exact absurd h (by simp)
  · split at h
    · exact absurd h (by simp)
    · split at h
      · exact absurd h (by simp)
      · rename_i h24 _
        rw [Option.some.injEq] at h
        subst h
        simp only [List.length_map]
        omega

/-! ## Claim theorems -/

/-- C9: for any two Gregorian dates lying 60 days apart (as measured by the
program's own Julian Day Number), the day pillars carry the same `index60`:
the day pillar is periodic with period 60 over integer-day steps. -/
theorem day_pillar_period60 (y m d y2 m2 d2 : Int)
    (h : gregorian_to_jdn y2 m2 d2 = gregorian_to_jdn y m d + 60) :
    (get_day_pillar y2 m2 d2).index60 = (get_day_pillar y m d).index60 := by
  simp only [get_day_pillar, h]
  omega

/-- Witness for C9 at a concrete pair of dates 60 days apart
(2000-01-01 and 2000-03-01, across the 2000 leap day). -/
theorem day_pillar_period60_witness :
    gregorian_to_jdn 2000 3 1 = gregorian_to_jdn 2000 1 1 + 60 ∧
    (get_day_pillar 2000 3 1).index60 = (get_day_pillar 2000 1 1).index60 :=
  ⟨by decide, day_pillar_period60 2000 1 1 2000 3 1 (by decide)⟩

theorem collect_ok (scan : Int → List GEvent) (y : Int) (v : Int × Int)
    (hv : clamp_range (utcMin (y - 1) 3 1 0 0) (utcMin (y + 1) 3 1 0 0) = .ok v) :
    collect_events_timeline scan y = .ok (scan y) := by
  unfold collect_events_timeline
  rw [hv]

theorem generate_run_fold (scan : Int → List GEvent) :
    ∀ (ys : List Int) (acc : List (String × List GOut) × List Int),
      (∀ y ∈ ys, exceptIsOk
        (clamp_range (utcMin (y - 1) 3 1 0 0) (utcMin (y + 1) 3 1 0 0)) = true) →
      ys.foldlM (generate_step scan) acc =
        .ok (acc.1 ++ ys.map (fun y => (toString y, storeYear (scan y) y)),
             acc.2 ++ ys.filter (fun y => (slice_24_from_ipchun (scan y) y).isNone)) := by
  intro ys
  induction ys with
  | nil =>
    intro acc _
    simp only [List.foldlM_nil, List.map_nil, List.append_nil, List.filter_nil]
    rfl
  | cons y t ih =>
    intro acc hok
    obtain ⟨v, hv⟩ := (exceptIsOk_iff _).mp (hok y (List.mem_cons_self _ _))
    have hcol := collect_ok scan y v hv
    rw [List.foldlM_cons]
    cases hs : slice_24_from_ipchun (scan y) y with
    | none =>
      have hstep : generate_step scan acc y = .ok (acc.1 ++ [(toString y, [])], acc.2 ++ [y]) := by
        unfold generate_step
        rw [hcol]
        dsimp only
        rw [hs]
      rw [hstep]
      show t.foldlM (generate_step scan) _ = _
      rw [ih _ (fun z hz => hok z (List.mem_cons_of_mem _ hz))]
      simp [storeYear, hs, List.filter_cons]
    | some out =>
      have hlen : (sortByKst out).length = 24 := by
        rw [sortByKst_length]; exact slice_24_length _ _ _ hs
      have hstep : generate_step scan acc y =
          .ok (acc.1 ++ [(toString y, sortByKst out)], acc.2) := by
        unfold generate_step
        rw [hcol]
        dsimp only
        rw [hs]
        dsimp only
        rw [if_neg (by rw [hlen]; omega)]
      rw [hstep]
      show t.foldlM (generate_step scan) _ = _
      rw [ih _ (fun z hz => hok z (List.mem_cons_of_mem _ hz))]
      simp [storeYear, hs, List.filter_cons]

theorem serving_lookup_accepts_short_year :
    (get_jieqi_with_fallback shortTable "2000").toOption.map (fun x => x.2.2.length) = some 1 ∧
    exceptIsOk (calc_saju 2000 6 15 none shortTable) = true := by
  decide

theorem rangeexceeded_aborts_whole_run :
    exceptErr (generate_run 2055 2056 scan0) = some "Clamped range invalid" ∧
    exceptErr (collect_events_timeline scan0 2055) = some "Clamped range invalid" ∧
    exceptIsOk (collect_events_timeline scan0 2054) = true ∧
    generate_writes 2055 2056 scan0 [] = [] := by
  decide

theorem slice_failure_aborts_only_that_year (s e : Int) (scan : Int → List GEvent)
    (hclamp : ∀ y ∈ yearsRange s e, exceptIsOk
      (clamp_range (utcMin (y - 1) 3 1 0 0) (utcMin (y + 1) 3 1 0 0)) = true) :
    generate_run s e scan =
      .ok ((yearsRange s e).map (fun y => (toString y, storeYear (scan y) y)),
           (yearsRange s e).filter (fun y => (slice_24_from_ipchun (scan y) y).isNone)) := by
  unfold generate_run
  simpa using generate_run_fold scan (yearsRange s e) ([], []) hclamp

theorem slice_failure_aborts_only_that_year_witness :
    generate_run 2000 2001 scan0 =
      .ok ((yearsRange 2000 2001).map (fun y => (toString y, storeYear (scan0 y) y)),
           (yearsRange 2000 2001).filter (fun y => (slice_24_from_ipchun (scan0 y) y).isNone)) :=
  slice_failure_aborts_only_that_year 2000 2001 scan0 (by decide)

theorem generate_single_overwrite (scan : Int → List GEvent)
    (prior : List (String × List GOut)) :
    (generate_writes 2000 2001 scan prior).length = 1 ∧
    ∀ w ∈ generate_writes 2000 2001 scan prior,
      w.map Prod.fst = ["2000", "2001"] ∧ ∀ entry ∈ w, entry.1 ≠ "1999" := by
  have hrun : generate_run 2000 2001 scan =
      .ok ((yearsRange 2000 2001).map (fun y => (toString y, storeYear (scan y) y)),
           (yearsRange 2000 2001).filter (fun y => (slice_24_from_ipchun (scan y) y).isNone)) := by
    unfold generate_run
    simpa using generate_run_fold scan (yearsRange 2000 2001) ([], []) (by decide)
  have hyr : yearsRange 2000 2001 = [2000, 2001] := by decide
  have hw : generate_writes 2000 2001 scan prior =
      [[(toString (2000 : Int), storeYear (scan 2000) 2000),
        (toString (2001 : Int), storeYear (scan 2001) 2001)]] := by
    unfold generate_writes
    rw [hrun, hyr]
    rfl
  rw [hw]
  refine ⟨rfl, ?_⟩
  intro w hw2
  rw [List.mem_singleton] at hw2
  subst hw2
  constructor
  · simp only [List.map_cons, List.map_nil]
    decide
  · intro entry he
    rw [List.mem_cons, List.mem_singleton] at he
    rcases he with he | he <;> rw [he]
    · show toString (2000 : Int) ≠ "1999"
      decide
    · show toString (2001 : Int) ≠ "1999"
      decide

theorem serving_lookup_no_length_check (table : String → Option (List Item))
    (year : String) (l : List Item) :
    get_jieqi_with_fallback table year = .ok ("json", true, l) ↔
      table year = some l ∧ l ≠ [] := by
  unfold get_jieqi_with_fallback
  cases h : table year with
  | none => simp
  | some ll =>
    cases ll with
    | nil => simp
    | cons a t =>
      simp only [Except.ok.injEq, Prod.mk.injEq, Option.some.injEq, true_and]
      constructor
      · rintro rfl
        simp
      · rintro ⟨h2, _⟩
        exact h2

theorem firstIdxWhere_drop (p : GEvent → Bool) :
    ∀ (l : List GEvent) (i : Nat), firstIdxWhere p l = some i →
      ∃ e, (l.drop i).head? = some e ∧ p e = true := by
  intro l
  induction l with
  | nil => intro i h; simp [firstIdxWhere] at h
  | cons e es ih =>
    intro i h
    unfold firstIdxWhere at h
    split at h
    · rename_i hp
      rw [Option.some.injEq] at h
      subst h
      exact ⟨e, rfl, hp⟩
    · rw [Option.map_eq_some'] at h
      obtain ⟨j, hj, rfl⟩ := h
      exact ih j hj

theorem head?_take_succ (l : List GEvent) (n : Nat) : (l.take (n + 1)).head? = l.head? := by
  cases l <;> rfl

/-- C1 (amended): a successfully sliced year table has exactly 24 entries whose
degrees are distinct and exactly the 24 multiples of 15 in {0, …, 345}
(provided the scanned timeline only carries those target degrees, as the
generator guarantees), its instants are strictly increasing whenever the
timeline's are, and its FIRST entry is the 315° term (입춘) whose local
(UTC+9) calendar year equals the target year — but the remaining entries are
the next 23 events wherever they fall, so the final entries of a real year
table lie in local year Y+1 (see the counterexample), and no per-entry
local-year filter exists. -/
theorem slice_24_props (events : List GEvent) (targetYear : Int) (out : List GOut)
    (hdeg : ∀ ev ∈ events, ev.deg ∈ JIEQI.map (fun t => t.2))
    (hs : slice_24_from_ipchun events targetYear = some out) :
    out.length = 24 ∧
    (out.map (fun o => o.deg)).Nodup ∧
    (out.map (fun o => o.deg)).toFinset = (JIEQI.map (fun t => t.2)).toFinset ∧
    (∃ o0, out.head? = some o0 ∧ o0.deg = 315 ∧ kstYear o0.utc = targetYear) ∧
    (List.Chain' (· < ·) (events.map (fun ev => ev.utc)) →
      List.Chain' (· < ·) (out.map (fun o => o.utc))) := by
  cases hfi : firstIdxWhere (fun e => e.deg == 315 && kstYear e.utc == targetYear) events with
  | none =>
    unfold slice_24_from_ipchun at hs
    rw [hfi] at hs
    simp at hs
  | some idx =>
    unfold slice_24_from_ipchun at hs
    rw [hfi] at hs
    dsimp only at hs
    split at hs
    · exact absurd hs (by simp)
    · split at hs
      · exact absurd hs (by simp)
      · rename_i h24 hdd
        rw [Option.some.injEq] at hs
        have hlen24 : ((events.drop idx).take 24).length = 24 := by omega
        have hdedup : ((((events.drop idx).take 24)).map (fun e => e.deg)).dedup.length = 24 := by
          omega
        have hsub : List.Sublist ((events.drop idx).take 24) events :=
          (List.take_sublist _ _).trans (List.drop_sublist _ _)
        have hmap : out.map (fun o => o.deg) =
            ((events.drop idx).take 24).map (fun e => e.deg) := by
          rw [← hs, List.map_map]
          rfl
        have hmapu : out.map (fun o => o.utc) =
            ((events.drop idx).take 24).map (fun e => e.utc) := by
          rw [← hs, List.map_map]
          rfl
        have hlenmap : (((events.drop idx).take 24).map (fun e => e.deg)).length = 24 := by
          simpa using hlen24
        have hnodup : (out.map (fun o => o.deg)).Nodup := by
          rw [hmap, ← List.dedup_eq_self]
          exact (List.dedup_sublist _).eq_of_length (by omega)
        refine ⟨by rw [← hs]; simpa using hlen24, hnodup, ?_, ?_, ?_⟩
        · -- the degree multiset is exactly the 24 targets
          refine Finset.eq_of_subset_of_card_le ?_ ?_
          · intro x hx
            rw [List.mem_toFinset] at hx ⊢
            rw [hmap, List.mem_map] at hx
            obtain ⟨ev, hev, rfl⟩ := hx
            exact hdeg ev (hsub.subset hev)
          · rw [List.card_toFinset, hmap, List.card_toFinset, hdedup]
            decide
        · -- the slice starts at the matched 입춘 event
          obtain ⟨e0, he0, hp⟩ := firstIdxWhere_drop _ events idx hfi
          rw [Bool.and_eq_true, beq_iff_eq, beq_iff_eq] at hp
          refine ⟨{ name := e0.name, deg := e0.deg, utc := e0.utc, kst := e0.utc + 540 },
            ?_, hp.1, hp.2⟩
          rw [← hs, List.head?_map,
            show ((events.drop idx).take 24).head? = (events.drop idx).head? from
              head?_take_succ _ 23,
            he0]
          rfl
        · -- strictly increasing instants are inherited from the timeline
          intro hch
          rw [hmapu]
          exact hch.sublist (hsub.map _)

/-- C1 counterexample: on the realistic year-2000 timeline the slice succeeds
and is stored, yet not every stored entry's local (UTC+9) calendar year is
2000 — the trailing terms fall in January 2001.  The claim's "each instant
falls in local calendar year Y" is false of the code, which never filters
entries by local year. -/
theorem slice_24_year_leak :
    (slice_24_from_ipchun events2000 2000).isSome = true ∧
    ¬ (∀ o ∈ (slice_24_from_ipchun events2000 2000).getD [], kstYear o.utc = 2000) := by
  decide

/-- Witness for the amended C1 on the concrete year-2000 timeline. -/
theorem slice_24_props_witness :
    ∃ out, slice_24_from_ipchun events2000 2000 = some out ∧ out.length = 24 ∧
      (out.map (fun o => o.deg)).Nodup := by
  have hs : slice_24_from_ipchun events2000 2000 =
      some ((slice_24_from_ipchun events2000 2000).getD []) := by decide
  obtain ⟨h1, h2, _, _, _⟩ := slice_24_props events2000 2000 _ (by decide) hs
  exact ⟨_, hs, h1, h2⟩

theorem insertByKey_head (x : Int × String × String) (l : List (Int × String × String)) :
    (insertByKey x l).head? = some x ∨ (insertByKey x l).head? = l.head? := by
  cases l with
  | nil => left; rfl
  | cons b t =>
    unfold insertByKey
    split
    · right; rfl
    · left; rfl

theorem mem_insertByKey (x y : Int × String × String) (l : List (Int × String × String)) :
    y ∈ insertByKey x l ↔ y = x ∨ y ∈ l := by
  induction l with
  | nil => simp [insertByKey]
  | cons a t ih =>
    unfold insertByKey
    split
    · simp only [List.mem_cons, ih]
      tauto
    · simp only [List.mem_cons]

theorem mem_sortByKey (y : Int × String × String) (l : List (Int × String × String)) :
    y ∈ sortByKey l ↔ y ∈ l := by
  induction l with
  | nil => simp [sortByKey]
  | cons a t ih =>
    unfold sortByKey
    rw [mem_insertByKey, ih, List.mem_cons]

theorem insertByKey_sorted (x : Int × String × String) :
    ∀ l, List.Chain' (fun a b => a.1 ≤ b.1) l →
      List.Chain' (fun a b => a.1 ≤ b.1) (insertByKey x l) := by
  intro l
  induction l with
  | nil => intro _; simp [insertByKey]
  | cons a t ih =>
    intro h
    rw [List.chain'_cons'] at h
    unfold insertByKey
    split
    · rename_i hlt
      rw [List.chain'_cons']
      refine ⟨?_, ih h.2⟩
      intro b hb
      rcases insertByKey_head x t with hh | hh
      · rw [hh, Option.mem_def, Option.some.injEq] at hb
        subst hb
        omega
      · rw [hh] at hb
        exact h.1 b hb
    · rename_i hge
      rw [List.chain'_cons']
      refine ⟨?_, List.chain'_cons'.mpr h⟩
      intro b hb
      rw [Option.mem_def, List.head?_cons, Option.some.injEq] at hb
      subst hb
      omega

theorem sortByKey_sorted (l : List (Int × String × String)) :
    List.Chain' (fun a b => a.1 ≤ b.1) (sortByKey l) := by
  induction l with
  | nil => simp [sortByKey]
  | cons x xs ih => exact insertByKey_sorted x _ ih

theorem sorted_getLast_max :
    ∀ (l : List (Int × String × String)) (c : Int × String × String),
      List.Chain' (fun a b => a.1 ≤ b.1) l → l.getLast? = some c → ∀ x ∈ l, x.1 ≤ c.1 := by
  intro l
  induction l with
  | nil => intro c _ hc; simp at hc
  | cons a t ih =>
    intro c hch hc x hx
    cases t with
    | nil =>
      rw [List.getLast?_singleton, Option.some.injEq] at hc
      rw [List.mem_singleton] at hx
      subst hc
      subst hx
      omega
    | cons b t2 =>
      rw [List.getLast?_cons_cons] at hc
      rw [List.chain'_cons] at hch
      rcases List.mem_cons.mp hx with rfl | hx2
      · have hb := ih c hch.2 hc b (List.mem_cons_self _ _)
        omega
      · exact ih c hch.2 hc x hx2

/-- The branch `_get_month_branch_from_terms` returns is 丑 when no candidate
boundary is at or before the birth instant, and otherwise the branch of a
candidate whose boundary is at or before the birth instant and maximal among
such candidates. -/
theorem month_branch_latest (birth : Int) (thisT prevT : String → Option Int) :
    ((∀ c ∈ monthCandidates thisT prevT, ¬ c.1 ≤ birth) →
      _get_month_branch_from_terms birth thisT prevT = "丑") ∧
    (∀ c ∈ monthCandidates thisT prevT, c.1 ≤ birth →
      ∃ cmax ∈ monthCandidates thisT prevT, cmax.1 ≤ birth ∧
        (∀ c2 ∈ monthCandidates thisT prevT, c2.1 ≤ birth → c2.1 ≤ cmax.1) ∧
        _get_month_branch_from_terms birth thisT prevT = cmax.2.1) := by
  constructor
  · intro hnone
    unfold _get_month_branch_from_terms
    have hv : (monthCandidates thisT prevT).filter (fun c => decide (c.1 ≤ birth)) = [] := by
      rw [List.filter_eq_nil_iff]
      intro c hc
      simpa using hnone c hc
    rw [hv]
    rfl
  · intro c hc hcle
    have hcv : c ∈ (monthCandidates thisT prevT).filter (fun c => decide (c.1 ≤ birth)) := by
      rw [List.mem_filter]
      exact ⟨hc, by simpa using hcle⟩
    have hcs : c ∈ sortByKey ((monthCandidates thisT prevT).filter
        (fun c => decide (c.1 ≤ birth))) := (mem_sortByKey _ _).mpr hcv
    have hne : sortByKey ((monthCandidates thisT prevT).filter
        (fun c => decide (c.1 ≤ birth))) ≠ [] := by
      intro hnil
      rw [hnil] at hcs
      exact absurd hcs (List.not_mem_nil c)
    obtain ⟨cm, hcm⟩ := Option.isSome_iff_exists.mp (List.getLast?_isSome.mpr hne)
    have hcmv : cm ∈ (monthCandidates thisT prevT).filter (fun c => decide (c.1 ≤ birth)) :=
      (mem_sortByKey _ _).mp (List.mem_of_getLast?_eq_some hcm)
    rw [List.mem_filter] at hcmv
    refine ⟨cm, hcmv.1, by simpa using hcmv.2, ?_, ?_⟩
    · intro c2 hc2 hc2le
      have hc2s : c2 ∈ sortByKey ((monthCandidates thisT prevT).filter
          (fun c => decide (c.1 ≤ birth))) := by
        rw [mem_sortByKey, List.mem_filter]
        exact ⟨hc2, by simpa using hc2le⟩
      exact sorted_getLast_max _ cm (sortByKey_sorted _) hcm c2 hc2s
    · unfold _get_month_branch_from_terms
      dsimp only
      rw [hcm]

/-- C3: the month pillar.  The boundary policy is a single uniform one — the
next local (KST) midnight after each term's instant (`boundary_next_midnight`,
applied to all 12 month terms of the birth year and to the previous year's
대설) — the month branch is the branch of the latest such boundary at or
before the birth instant, with fallback to 丑 when no boundary precedes the
birth, and the month stem is `STEMS[(index of yearStemToFirstMonthStem[yearStem]
+ the branch's offset from the start-of-spring branch 寅) mod 10]`. -/
theorem month_pillar_correct (birth : Int) (yearP : PillarIdx) (jThis jPrev : List Item)
    (p : Pillar) (hp : get_month_pillar birth yearP jThis jPrev = .ok p) :
    ((∀ c ∈ monthCandidates (_jieqi_term_dt_map jThis) (_jieqi_term_dt_map jPrev),
        ¬ c.1 ≤ birth) → p.branch = "丑") ∧
    (∀ c ∈ monthCandidates (_jieqi_term_dt_map jThis) (_jieqi_term_dt_map jPrev),
      c.1 ≤ birth →
      ∃ cmax ∈ monthCandidates (_jieqi_term_dt_map jThis) (_jieqi_term_dt_map jPrev),
        cmax.1 ≤ birth ∧
        (∀ c2 ∈ monthCandidates (_jieqi_term_dt_map jThis) (_jieqi_term_dt_map jPrev),
          c2.1 ≤ birth → c2.1 ≤ cmax.1) ∧
        p.branch = cmax.2.1) ∧
    (∃ yin, YEAR_STEM_TO_YIN_MONTH_STEM yearP.stem = some yin ∧
      p.stem = STEMS.getD ((STEMS.indexOf yin + MONTH_BRANCH_SEQ.indexOf p.branch) % 10) "") := by
  unfold get_month_pillar at hp
  cases hys : YEAR_STEM_TO_YIN_MONTH_STEM yearP.stem with
  | none =>
    rw [hys] at hp
    exact absurd hp (by simp)
  | some yin =>
    rw [hys] at hp
    dsimp only at hp
    rw [Except.ok.injEq] at hp
    subst hp
    refine ⟨?_, ?_, yin, rfl, rfl⟩
    · exact (month_branch_latest birth _ _).1
    · exact (month_branch_latest birth _ _).2

/-- Witness for C3 on a concrete birth (2000-03-10 06:00 KST) between 경칩 and
청명: the month branch is 卯 via the latest boundary (경칩's next midnight) and
the stem works out to 己 (year stem 庚 → first month stem 戊, offset 1). -/
theorem month_pillar_correct_witness :
    ∃ p, get_month_pillar (kstMin 2000 3 10 6 0) (get_year_pillar 2000) jThisEx jPrevEx =
        .ok p ∧ p = { stem := "己", branch := "卯", ganji := "己卯" } ∧
      ∃ cmax ∈ monthCandidates (_jieqi_term_dt_map jThisEx) (_jieqi_term_dt_map jPrevEx),
        cmax.1 ≤ kstMin 2000 3 10 6 0 ∧
        (∀ c2 ∈ monthCandidates (_jieqi_term_dt_map jThisEx) (_jieqi_term_dt_map jPrevEx),
          c2.1 ≤ kstMin 2000 3 10 6 0 → c2.1 ≤ cmax.1) ∧
        p.branch = cmax.2.1 := by
  have hp : get_month_pillar (kstMin 2000 3 10 6 0) (get_year_pillar 2000) jThisEx jPrevEx =
      .ok { stem := "己", branch := "卯", ganji := "己卯" } :=
    (exceptToOption_eq _ _).mp (by decide)
  obtain ⟨_, h2, _⟩ := month_pillar_correct _ _ _ _ _ hp
  exact ⟨_, hp, rfl,
    h2 (boundary_next_midnight (kstMin 2000 3 5 14 0), "卯", "경칩") (by decide) (by decide)⟩

theorem get_jieqi_ok_form (table : String → Option (List Item)) (year : String)
    (v : String × Bool × List Item) (h : get_jieqi_with_fallback table year = .ok v) :
    v.1 = "json" ∧ v.2.1 = true := by
  unfold get_jieqi_with_fallback at h
  split at h
  · exact absurd h (by simp)
  · exact absurd h (by simp)
  · rw [Except.ok.injEq] at h
    rw [← h]
    exact ⟨rfl, rfl⟩

/-- Structural characterisation of a successful `calc_saju` run: how every
field of the result record is produced. -/
theorem calc_saju_ok_form (y m d : Int) (bt : Option (Int × Int))
    (table : String → Option (List Item)) (r : CalcRes)
    (hr : calc_saju y m d bt table = .ok r) :
    ∃ jThis t jPrev mp,
      get_jieqi_with_fallback table (toString y) = .ok ("json", true, jThis) ∧
      find_ipchun_dt jThis = .ok (some t) ∧
      get_jieqi_with_fallback table (toString (y - 1)) = .ok ("json", true, jPrev) ∧
      get_month_pillar (kstMin y m d (hhmmOf bt).1 (hhmmOf bt).2)
        (get_year_pillar (if kstMin y m d (hhmmOf bt).1 (hhmmOf bt).2 ≥ t then y else y - 1))
        jThis jPrev = .ok mp ∧
      r.sajuYear = (if kstMin y m d (hhmmOf bt).1 (hhmmOf bt).2 ≥ t then y else y - 1) ∧
      r.yearP = get_year_pillar r.sajuYear ∧
      r.monthP = mp ∧
      r.dayP = get_day_pillar y m d ∧
      (bt = none → r.hourP = none) ∧
      (∀ hh mm, bt = some (hh, mm) →
        ∃ hp, get_hour_pillar (get_day_pillar y m d) hh mm = .ok hp ∧ r.hourP = some hp) := by
  unfold calc_saju at hr
  cases hg1 : get_jieqi_with_fallback table (toString y) with
  | error e => rw [hg1] at hr; exact absurd hr (by simp)
  | ok v =>
    obtain ⟨src, fb, jThis⟩ := v
    obtain ⟨hsrc, hfb⟩ := get_jieqi_ok_form _ _ _ hg1
    dsimp only at hsrc hfb
    subst hsrc
    subst hfb
    rw [hg1] at hr
    dsimp only at hr
    cases hip : find_ipchun_dt jThis with
    | error e => rw [hip] at hr; exact absurd hr (by simp)
    | ok ipo =>
      rw [hip] at hr
      cases ipo with
      | none => exact absurd hr (by simp)
      | some t =>
        dsimp only at hr
        cases hg2 : get_jieqi_with_fallback table (toString (y - 1)) with
        | error e => rw [hg2] at hr; exact absurd hr (by simp)
        | ok v2 =>
          obtain ⟨s2, f2, jPrev⟩ := v2
          obtain ⟨hs2, hf2⟩ := get_jieqi_ok_form _ _ _ hg2
          dsimp only at hs2 hf2
          subst hs2
          subst hf2
          rw [hg2] at hr
          dsimp only at hr
          cases hmp : get_month_pillar (kstMin y m d (hhmmOf bt).1 (hhmmOf bt).2)
              (get_year_pillar (if kstMin y m d (hhmmOf bt).1 (hhmmOf bt).2 ≥ t then y
                                else y - 1)) jThis jPrev with
          | error e => rw [hmp] at hr; exact absurd hr (by simp)
          | ok mp =>
            rw [hmp] at hr
            dsimp only at hr
            cases bt with
            | none =>
              dsimp only at hr
              rw [Except.ok.injEq] at hr
              subst hr
              exact ⟨jThis, t, jPrev, mp, rfl, hip, rfl, hmp, rfl, rfl, rfl, rfl,
                fun _ => rfl, fun hh mm hcon => by cases hcon⟩
            | some hhmm =>
              dsimp only at hr
              cases hhp : get_hour_pillar (get_day_pillar y m d) (hhmmOf (some hhmm)).1
                  (hhmmOf (some hhmm)).2 with
              | error e => rw [hhp] at hr; exact absurd hr (by simp)
              | ok hp =>
                rw [hhp] at hr
                dsimp only at hr
                rw [Except.ok.injEq] at hr
                subst hr
                refine ⟨jThis, t, jPrev, mp, ?_, hip, ?_, hmp, ?_, ?_, ?_, ?_, ?_, ?_⟩
                · rfl
                · rfl
                · rfl
                · rfl
                · rfl
                · rfl
                · intro hcon
                  cases hcon
                · intro hh mm hbt
                  rw [Option.some.injEq] at hbt
                  subst hbt
                  exact ⟨hp, hhp, rfl⟩

/-- C7: the sexagenary year is the birth's calendar year when the birth
instant is at or after the year's start-of-spring (입춘) instant, and the
calendar year minus one otherwise; the year-pillar `index60` is
`(sexagenaryYear − 1984) mod 60`, so 1924, 1984 and 2044 all map to index 0. -/
theorem year_pillar_correct (y m d : Int) (bt : Option (Int × Int))
    (table : String → Option (List Item)) (r : CalcRes)
    (hr : calc_saju y m d bt table = .ok r) :
    (∃ jThis t, get_jieqi_with_fallback table (toString y) = .ok ("json", true, jThis) ∧
      find_ipchun_dt jThis = .ok (some t) ∧
      r.sajuYear = (if kstMin y m d (hhmmOf bt).1 (hhmmOf bt).2 ≥ t then y else y - 1)) ∧
    r.yearP = get_year_pillar r.sajuYear ∧
    r.yearP.index60 = (r.sajuYear - 1984) % 60 ∧
    (get_year_pillar 1924).index60 = 0 ∧
    (get_year_pillar 1984).index60 = 0 ∧
    (get_year_pillar 2044).index60 = 0 := by
  obtain ⟨jThis, t, jPrev, mp, hA, hB, hC, hD, hE, hF, hG, hH, hI, hJ⟩ :=
    calc_saju_ok_form y m d bt table r hr
  refine ⟨⟨jThis, t, hA, hB, hE⟩, hF, ?_, by decide, by decide, by decide⟩
  rw [hF]
  rfl

/-- Witness for C7 on a concrete birth (2000-06-15, time unknown) served from
`shortTable`. -/
theorem year_pillar_correct_witness :
    ∃ r, calc_saju 2000 6 15 none shortTable = .ok r ∧
      r.yearP = get_year_pillar r.sajuYear ∧
      r.yearP.index60 = (r.sajuYear - 1984) % 60 := by
  obtain ⟨r, hr⟩ := (exceptIsOk_iff _).mp
    (show exceptIsOk (calc_saju 2000 6 15 none shortTable) = true by decide)
  obtain ⟨_, hyp, hidx, _⟩ := year_pillar_correct 2000 6 15 none shortTable r hr
  exact ⟨r, hr, hyp, hidx⟩

theorem get_hour_pillar_form (dayP : PillarIdx) (hh mm : Int) (hp : Pillar)
    (h : get_hour_pillar dayP hh mm = .ok hp) :
    ∃ zi, DAY_STEM_TO_ZI_HOUR_STEM dayP.stem = some zi ∧
      hp.branch = _get_hour_branch hh mm ∧
      hp.stem = STEMS.getD
        ((STEMS.indexOf zi + HOUR_BRANCH_SEQ.indexOf (_get_hour_branch hh mm)) % 10) "" := by
  unfold get_hour_pillar at h
  cases hz : DAY_STEM_TO_ZI_HOUR_STEM dayP.stem with
  | none => rw [hz] at h; exact absurd h (by simp)
  | some zi =>
    rw [hz] at h
    dsimp only at h
    rw [Except.ok.injEq] at h
    subst h
    exact ⟨zi, rfl, rfl, rfl⟩

/-- The two-hour block arithmetic of `_get_hour_branch`: for a valid local
time of day, the branch index is `((hh + 1) / 2) mod 12`, i.e. the 12-block
partition anchored so the first branch spans 23:00–00:59. -/
theorem hour_branch_block (hh mm : Int) (h1 : 0 ≤ hh) (h2 : hh < 24)
    (h3 : 0 ≤ mm) (h4 : mm < 60) :
    _get_hour_branch hh mm = HOUR_BRANCH_SEQ.getD (((hh + 1) / 2) % 12).toNat "" := by
  unfold _get_hour_branch
  dsimp only
  have heq : ((hh * 60 + mm - 23 * 60) % (24 * 60) / 120).toNat =
      (((hh + 1) / 2) % 12).toNat := by
    omega
  rw [heq]

/-- C8: the hour pillar is produced exactly when the birth time of day is
known (`none` otherwise, with local time defaulting to 00:00 for the
date-level pillars, which are unchanged); when produced, its branch is the
two-hour block of the 12-block partition anchored at 23:00 (block index
`((hh+1)/2) mod 12`), and its stem is `STEMS[(index of
dayStemToFirstHourStem[dayStem] + branch offset from the 23:00 block) mod
10]`. -/
theorem hour_pillar_policy (y m d : Int) (table : String → Option (List Item)) :
    (∀ r, calc_saju y m d none table = .ok r → r.hourP = none) ∧
    (∀ hh mm r, 0 ≤ hh → hh < 24 → 0 ≤ mm → mm < 60 →
      calc_saju y m d (some (hh, mm)) table = .ok r →
      ∃ hp, r.hourP = some hp ∧
        hp.branch = HOUR_BRANCH_SEQ.getD (((hh + 1) / 2) % 12).toNat "" ∧
        ∃ zi, DAY_STEM_TO_ZI_HOUR_STEM r.dayP.stem = some zi ∧
          hp.stem = STEMS.getD
            ((STEMS.indexOf zi + HOUR_BRANCH_SEQ.indexOf hp.branch) % 10) "") ∧
    (∀ r r2, calc_saju y m d none table = .ok r →
      calc_saju y m d (some (0, 0)) table = .ok r2 →
      r.yearP = r2.yearP ∧ r.monthP = r2.monthP ∧ r.dayP = r2.dayP) := by
  refine ⟨?_, ?_, ?_⟩
  · intro r hr
    obtain ⟨jThis, t, jPrev, mp, hA, hB, hC, hD, hE, hF, hG, hH, hI, hJ⟩ :=
      calc_saju_ok_form y m d none table r hr
    exact hI rfl
  · intro hh mm r hh0 hh24 hm0 hm60 hr
    obtain ⟨jThis, t, jPrev, mp, hA, hB, hC, hD, hE, hF, hG, hH, hI, hJ⟩ :=
      calc_saju_ok_form y m d (some (hh, mm)) table r hr
    obtain ⟨hp, hhp, hrp⟩ := hJ hh mm rfl
    obtain ⟨zi, hzi, hbr, hst⟩ := get_hour_pillar_form _ _ _ _ hhp
    refine ⟨hp, hrp, ?_, zi, ?_, ?_⟩
    · rw [hbr]
      exact hour_branch_block hh mm hh0 hh24 hm0 hm60
    · rw [hH]
      exact hzi
    · rw [hbr]
      exact hst
  · intro r r2 hr hr2
    obtain ⟨jThis, t, jPrev, mp, hA, hB, hC, hD, hE, hF, hG, hH, hI, hJ⟩ :=
      calc_saju_ok_form y m d none table r hr
    obtain ⟨jThis2, t2, jPrev2, mp2, hA2, hB2, hC2, hD2, hE2, hF2, hG2, hH2, hI2, hJ2⟩ :=
      calc_saju_ok_form y m d (some (0, 0)) table r2 hr2
    rw [hA] at hA2
    rw [Except.ok.injEq, Prod.mk.injEq, Prod.mk.injEq] at hA2
    obtain ⟨-, -, hjj⟩ := hA2
    subst hjj
    rw [hB] at hB2
    rw [Except.ok.injEq, Option.some.injEq] at hB2
    subst hB2
    rw [hC] at hC2
    rw [Except.ok.injEq, Prod.mk.injEq, Prod.mk.injEq] at hC2
    obtain ⟨-, -, hpp⟩ := hC2
    subst hpp
    dsimp only [hhmmOf] at hD hE hD2 hE2
    rw [hD] at hD2
    rw [Except.ok.injEq] at hD2
    subst hD2
    refine ⟨?_, ?_, ?_⟩
    · rw [hF, hF2, hE, hE2]
    · rw [hG, hG2]
    · rw [hH, hH2]

/-- Witness for C8 on concrete births (2000-06-15) served from `shortTable`:
time unknown yields no hour pillar; 14:30 yields the 未 block (index 7). -/
theorem hour_pillar_policy_witness :
    (∃ r, calc_saju 2000 6 15 none shortTable = .ok r ∧ r.hourP = none) ∧
    (∃ r hp, calc_saju 2000 6 15 (some (14, 30)) shortTable = .ok r ∧ r.hourP = some hp ∧
      hp.branch = HOUR_BRANCH_SEQ.getD ((((14 : Int) + 1) / 2) % 12).toNat "") := by
  constructor
  · obtain ⟨r, hr⟩ := (exceptIsOk_iff _).mp
      (show exceptIsOk (calc_saju 2000 6 15 none shortTable) = true by decide)
    exact ⟨r, hr, (hour_pillar_policy 2000 6 15 shortTable).1 r hr⟩
  · obtain ⟨r, hr⟩ := (exceptIsOk_iff _).mp
      (show exceptIsOk (calc_saju 2000 6 15 (some (14, 30)) shortTable) = true by decide)
    obtain ⟨hp, h1, h2, -⟩ := (hour_pillar_policy 2000 6 15 shortTable).2.1 14 30 r
      (by decide) (by decide) (by decide) (by decide) hr
    exact ⟨r, hp, hr, h1, h2⟩

theorem yin_mem (s yin : String) (h : YEAR_STEM_TO_YIN_MONTH_STEM s = some yin) :
    yin ∈ ["丙", "戊", "庚", "壬", "甲"] := by
  unfold YEAR_STEM_TO_YIN_MONTH_STEM at h
  repeat' split at h
  all_goals first
    | (rw [Option.some.injEq] at h; subst h; decide)
    | simp at h

theorem zi_mem (s zi : String) (h : DAY_STEM_TO_ZI_HOUR_STEM s = some zi) :
    zi ∈ ["甲", "丙", "戊", "庚", "壬"] := by
  unfold DAY_STEM_TO_ZI_HOUR_STEM at h
  repeat' split at h
  all_goals first
    | (rw [Option.some.injEq] at h; subst h; decide)
    | simp at h

theorem candidates_branch_mem (thisT prevT : String → Option Int) :
    ∀ c ∈ monthCandidates thisT prevT, c.2.1 ∈ MONTH_BRANCH_SEQ := by
  intro c hc
  unfold monthCandidates at hc
  rw [List.mem_append] at hc
  rcases hc with hc | hc
  · rw [List.mem_filterMap] at hc
    obtain ⟨tb, htb, hmap⟩ := hc
    rw [Option.map_eq_some'] at hmap
    obtain ⟨dt, hdt, rfl⟩ := hmap
    fin_cases htb <;> dsimp only <;> decide
  · cases hP : prevT "대설" with
    | some dt =>
      rw [hP] at hc
      rw [List.mem_singleton] at hc
      subst hc
      dsimp only
      decide
    | none =>
      rw [hP] at hc
      exact absurd hc (List.not_mem_nil c)

theorem month_branch_mem (birth : Int) (thisT prevT : String → Option Int) :
    _get_month_branch_from_terms birth thisT prevT ∈ MONTH_BRANCH_SEQ := by
  unfold _get_month_branch_from_terms
  dsimp only
  split
  · decide
  · rename_i c hc
    have hcm : c ∈ monthCandidates thisT prevT := by
      have hmem := List.mem_of_getLast?_eq_some hc
      rw [mem_sortByKey, List.mem_filter] at hmem
      exact hmem.1
    exact candidates_branch_mem _ _ c hcm

theorem hour_branch_mem (hh mm : Int) : _get_hour_branch hh mm ∈ HOUR_BRANCH_SEQ := by
  unfold _get_hour_branch
  dsimp only
  have h12 : ((hh * 60 + mm - 23 * 60) % (24 * 60) / 120).toNat < 12 := by omega
  generalize hgen : ((hh * 60 + mm - 23 * 60) % (24 * 60) / 120).toNat = i at h12 ⊢
  interval_cases i <;> decide

/-- C10: every pillar any of the four resolvers emits carries a (stem, branch)
pair jointly derivable from a single index in [0, 60) — none of the 60
unreachable combinations is ever produced, even though the month and hour
resolvers obtain stem and branch through separate table lookups. -/
theorem pillars_sexagenary :
    (∀ year : Int,
      isSexagenaryPair (get_year_pillar year).stem (get_year_pillar year).branch) ∧
    (∀ y m d : Int,
      isSexagenaryPair (get_day_pillar y m d).stem (get_day_pillar y m d).branch) ∧
    (∀ birth yearP jThis jPrev p, get_month_pillar birth yearP jThis jPrev = .ok p →
      isSexagenaryPair p.stem p.branch) ∧
    (∀ dayP hh mm p, get_hour_pillar dayP hh mm = .ok p →
      isSexagenaryPair p.stem p.branch) := by
  refine ⟨?_, ?_, ?_, ?_⟩
  · intro year
    refine ⟨⟨((year - 1984) % 60).toNat, by omega⟩, ?_, ?_⟩
    · show stemAt ((year - 1984) % 60 % 10) =
        STEMS.getD (((year - 1984) % 60).toNat % 10) ""
      unfold stemAt
      congr 1
      omega
    · show branchAt ((year - 1984) % 60 % 12) =
        BRANCHES.getD (((year - 1984) % 60).toNat % 12) ""
      unfold branchAt
      congr 1
      omega
  · intro y m d
    refine ⟨⟨((gregorian_to_jdn y m d + 47) % 60).toNat, by omega⟩, ?_, ?_⟩
    · show stemAt ((gregorian_to_jdn y m d + 47) % 60 % 10) =
        STEMS.getD (((gregorian_to_jdn y m d + 47) % 60).toNat % 10) ""
      unfold stemAt
      congr 1
      omega
    · show branchAt ((gregorian_to_jdn y m d + 47) % 60 % 12) =
        BRANCHES.getD (((gregorian_to_jdn y m d + 47) % 60).toNat % 12) ""
      unfold branchAt
      congr 1
      omega
  · intro birth yearP jThis jPrev p hp
    unfold get_month_pillar at hp
    cases hys : YEAR_STEM_TO_YIN_MONTH_STEM yearP.stem with
    | none => rw [hys] at hp; exact absurd hp (by simp)
    | some yin =>
      rw [hys] at hp
      dsimp only at hp
      rw [Except.ok.injEq] at hp
      subst hp
      have hyin := yin_mem _ _ hys
      have hmb := month_branch_mem birth (_jieqi_term_dt_map jThis) (_jieqi_term_dt_map jPrev)
      dsimp only
      generalize hg : _get_month_branch_from_terms birth
        (_jieqi_term_dt_map jThis) (_jieqi_term_dt_map jPrev) = mb at hmb ⊢
      fin_cases hmb <;> fin_cases hyin <;> decide
  · intro dayP hh mm p hp
    unfold get_hour_pillar at hp
    cases hz : DAY_STEM_TO_ZI_HOUR_STEM dayP.stem with
    | none => rw [hz] at hp; exact absurd hp (by simp)
    | some zi =>
      rw [hz] at hp
      dsimp only at hp
      rw [Except.ok.injEq] at hp
      subst hp
      have hzi := zi_mem _ _ hz
      have hhb := hour_branch_mem hh mm
      dsimp only
      generalize hg : _get_hour_branch hh mm = hb at hhb ⊢
      fin_cases hhb <;> fin_cases hzi <;> decide

/-- Witness for C10 at concrete resolver runs. -/
theorem pillars_sexagenary_witness :
    isSexagenaryPair (get_year_pillar 2000).stem (get_year_pillar 2000).branch ∧
    (∃ p, get_month_pillar (kstMin 2000 3 10 6 0) (get_year_pillar 2000) jThisEx jPrevEx =
        .ok p ∧ isSexagenaryPair p.stem p.branch) ∧
    (∃ p, get_hour_pillar (get_day_pillar 2000 6 15) 14 30 = .ok p ∧
      isSexagenaryPair p.stem p.branch) := by
  refine ⟨pillars_sexagenary.1 2000, ?_, ?_⟩
  · have hp : get_month_pillar (kstMin 2000 3 10 6 0) (get_year_pillar 2000) jThisEx jPrevEx =
        .ok { stem := "己", branch := "卯", ganji := "己卯" } :=
      (exceptToOption_eq _ _).mp (by decide)
    exact ⟨_, hp, pillars_sexagenary.2.2.1 _ _ _ _ _ hp⟩
  · obtain ⟨p, hp⟩ := (exceptIsOk_iff _).mp
      (show exceptIsOk (get_hour_pillar (get_day_pillar 2000 6 15) 14 30) = true by decide)
    exact ⟨p, hp, pillars_sexagenary.2.2.2 _ _ _ _ hp⟩

theorem qmod_eq_self (a m : ℚ) (h0 : 0 ≤ a) (h1 : a < m) : qmod a m = a := by
  unfold qmod
  have hm : 0 < m := lt_of_le_of_lt h0 h1
  have hf : ⌊a / m⌋ = 0 := by
    rw [Int.floor_eq_zero_iff, Set.mem_Ico]
    exact ⟨div_nonneg h0 hm.le, (div_lt_one hm).mpr h1⟩
  rw [hf]
  simp

theorem wrap_diff_small (a b : ℚ) (h0 : -180 < a - b) (h1 : a - b ≤ 180) :
    _wrap_diff a b = a - b := by
  unfold _wrap_diff
  rcases le_or_lt 0 (a - b) with hc | hc
  · rw [qmod_eq_self _ _ hc (by linarith)]
    dsimp only
    rw [if_neg (by linarith)]
  · have hq : qmod (a - b) 360 = a - b + 360 := by
      unfold qmod
      have hf : ⌊(a - b) / 360⌋ = -1 := by
        rw [Int.floor_eq_iff]
        constructor
        · push_cast
          rw [le_div_iff (by norm_num : (0:ℚ) < 360)]
          linarith
        · push_cast
          rw [div_lt_iff (by norm_num : (0:ℚ) < 360)]
          linarith
      rw [hf]
      push_cast
      ring
    rw [hq]
    dsimp only
    rw [if_pos (by linarith)]
    ring

/-- Interval invariant of the bisection loop: under a locally linear wrapped
difference with positive rate and a root strictly inside the bracket, the
final bracket stays inside the initial one, keeps the root, and its width
halves at every iteration. -/
theorem bisect_iter_locates (lon : ℚ → ℚ) (target r c : ℚ) (hr : 0 < r) :
    ∀ (n : Nat) (t0 t1 : ℚ),
      (∀ t, t0 ≤ t → t ≤ t1 → _wrap_diff (lon t) target = r * (t - c)) →
      t0 < c → c < t1 →
      t0 ≤ (bisect_iter lon target n t0 t1).1 ∧
      (bisect_iter lon target n t0 t1).2 ≤ t1 ∧
      (bisect_iter lon target n t0 t1).1 ≤ c ∧
      c ≤ (bisect_iter lon target n t0 t1).2 ∧
      (bisect_iter lon target n t0 t1).2 - (bisect_iter lon target n t0 t1).1 ≤
        (t1 - t0) / 2 ^ n := by
  intro n
  induction n with
  | zero =>
    intro t0 t1 hlin h0 h1
    have hb : bisect_iter lon target 0 t0 t1 = (t0, t1) := rfl
    rw [hb]
    exact ⟨le_refl _, le_refl _, h0.le, h1.le, by norm_num⟩
  | succ n ih =>
    intro t0 t1 hlin h0 h1
    have h01 : t0 < t1 := h0.trans h1
    have hmid0 : t0 < t0 + (t1 - t0) / 2 := by linarith
    have hmid1 : t0 + (t1 - t0) / 2 < t1 := by linarith
    have hdm : _wrap_diff (lon (t0 + (t1 - t0) / 2)) target =
        r * (t0 + (t1 - t0) / 2 - c) := hlin _ (by linarith) (by linarith)
    by_cases hz : _wrap_diff (lon (t0 + (t1 - t0) / 2)) target = 0
    · have hceq : t0 + (t1 - t0) / 2 = c := by
        rw [hdm] at hz
        rcases mul_eq_zero.mp hz with hz2 | hz2
        · exact absurd hz2 (ne_of_gt hr)
        · linarith
      have hstep : bisect_iter lon target (n + 1) t0 t1 =
          (t0 + (t1 - t0) / 2, t0 + (t1 - t0) / 2) := by
        unfold bisect_iter
        dsimp only
        rw [if_pos hz]
      rw [hstep]
      refine ⟨hmid0.le, hmid1.le, hceq.le, hceq.ge, ?_⟩
      have : (0:ℚ) < (t1 - t0) / 2 ^ (n + 1) :=
        div_pos (by linarith) (by positivity)
      linarith
    · have hdt0 : _wrap_diff (lon t0) target = r * (t0 - c) :=
        hlin _ (le_refl _) (by linarith)
      have hdt0neg : _wrap_diff (lon t0) target < 0 := by
        rw [hdt0]
        exact mul_neg_of_pos_of_neg hr (by linarith)
      by_cases hpos : 0 < _wrap_diff (lon (t0 + (t1 - t0) / 2)) target
      · have hcmid : c < t0 + (t1 - t0) / 2 := by
          rw [hdm] at hpos
          rcases mul_pos_iff.mp hpos with ⟨-, hgt⟩ | ⟨hlt, -⟩
          · linarith
          · exact absurd hlt (not_lt.mpr hr.le)
        have hstep : bisect_iter lon target (n + 1) t0 t1 =
            bisect_iter lon target n t0 (t0 + (t1 - t0) / 2) := by
          conv_lhs => unfold bisect_iter
          dsimp only
          rw [if_neg hz, if_pos (Or.inl ⟨hdt0neg, hpos⟩)]
        rw [hstep]
        obtain ⟨k1, k2, k3, k4, k5⟩ :=
          ih t0 (t0 + (t1 - t0) / 2) (fun t ha hb => hlin t ha (by linarith)) h0 hcmid
        refine ⟨k1, k2.trans hmid1.le, k3, k4, ?_⟩
        refine k5.trans (le_of_eq ?_)
        rw [show t0 + (t1 - t0) / 2 - t0 = (t1 - t0) / 2 from by ring, div_div, ← pow_succ']
      · have hneg : _wrap_diff (lon (t0 + (t1 - t0) / 2)) target < 0 :=
          lt_of_le_of_ne (not_lt.mp hpos) hz
        have hcmid : t0 + (t1 - t0) / 2 < c := by
          rw [hdm] at hneg
          rcases mul_neg_iff.mp hneg with ⟨-, hlt⟩ | ⟨hlt, -⟩
          · linarith
          · exact absurd hlt (not_lt.mpr hr.le)
        have hcond : ¬ ((_wrap_diff (lon t0) target < 0 ∧
              0 < _wrap_diff (lon (t0 + (t1 - t0) / 2)) target) ∨
            (0 < _wrap_diff (lon t0) target ∧
              _wrap_diff (lon (t0 + (t1 - t0) / 2)) target < 0)) := by
          rintro (⟨-, hp⟩ | ⟨hp, -⟩)
          · exact hpos hp
          · exact absurd hp (not_lt.mpr hdt0neg.le)
        have hstep : bisect_iter lon target (n + 1) t0 t1 =
            bisect_iter lon target n (t0 + (t1 - t0) / 2) t1 := by
          conv_lhs => unfold bisect_iter
          dsimp only
          rw [if_neg hz, if_neg hcond]
        rw [hstep]
        obtain ⟨k1, k2, k3, k4, k5⟩ :=
          ih (t0 + (t1 - t0) / 2) t1 (fun t ha hb => hlin t (by linarith) hb) hcmid h1
        refine ⟨hmid0.le.trans k1, k2, k3, k4, ?_⟩
        refine k5.trans (le_of_eq ?_)
        rw [show t1 - (t0 + (t1 - t0) / 2) = (t1 - t0) / 2 from by ring, div_div, ← pow_succ']

/-- The hit a genuine bracket produces is within `rate · width / 2^51` of the
crossing in wrapped-difference terms. -/
theorem bisect_hit_close (lon : ℚ → ℚ) (target r c t0 t1 : ℚ) (hr : 0 < r)
    (hlin : ∀ t, t0 ≤ t → t ≤ t1 → _wrap_diff (lon t) target = r * (t - c))
    (h0 : t0 < c) (h1 : c < t1) :
    |_wrap_diff (lon (bisect_hit lon target t0 t1)) target| ≤ r * (t1 - t0) / 2 ^ 51 := by
  obtain ⟨hb1, hb2, hb3, hb4, hb5⟩ :=
    bisect_iter_locates lon target r c hr BISECT_ITERS t0 t1 hlin h0 h1
  have huv : (bisect_iter lon target BISECT_ITERS t0 t1).1 ≤
      (bisect_iter lon target BISECT_ITERS t0 t1).2 := hb3.trans hb4
  have hhit : bisect_hit lon target t0 t1 =
      (bisect_iter lon target BISECT_ITERS t0 t1).1 +
        ((bisect_iter lon target BISECT_ITERS t0 t1).2 -
         (bisect_iter lon target BISECT_ITERS t0 t1).1) / 2 := rfl
  have hlo : t0 ≤ bisect_hit lon target t0 t1 := by rw [hhit]; linarith
  have hhi : bisect_hit lon target t0 t1 ≤ t1 := by rw [hhit]; linarith
  rw [hlin _ hlo hhi, abs_mul, abs_of_pos hr]
  have habs : |bisect_hit lon target t0 t1 - c| ≤
      ((bisect_iter lon target BISECT_ITERS t0 t1).2 -
       (bisect_iter lon target BISECT_ITERS t0 t1).1) / 2 := by
    rw [abs_le]
    constructor <;> (rw [hhit]; linarith)
  have hb5' : (bisect_iter lon target BISECT_ITERS t0 t1).2 -
      (bisect_iter lon target BISECT_ITERS t0 t1).1 ≤ (t1 - t0) / 2 ^ 50 := hb5
  calc r * |bisect_hit lon target t0 t1 - c|
      ≤ r * (((bisect_iter lon target BISECT_ITERS t0 t1).2 -
              (bisect_iter lon target BISECT_ITERS t0 t1).1) / 2) :=
        mul_le_mul_of_nonneg_left habs hr.le
    _ ≤ r * (t1 - t0) / 2 ^ 51 := by
        rw [mul_div_assoc]
        apply mul_le_mul_of_nonneg_left _ hr.le
        rw [show (2:ℚ) ^ 51 = 2 ^ 50 * 2 from by norm_num, ← div_div]
        exact (div_le_div_right (by norm_num : (0:ℚ) < 2)).mpr hb5'

/-- C2 (amended): every hit the crossing finder returns from a bracket on
which the wrapped difference to the target is linear in time with positive
rate and a root strictly inside (a genuine crossing bracket — no antipodal
wrap discontinuity inside it) satisfies the tolerance; exact coarse-sample
hits satisfy it trivially.  Brackets whose sign change comes from the ±180°
wrap discontinuity instead produce a spurious hit at the antipodal point (see
the counterexample). -/
theorem find_crossings_genuine_tol (lon : ℚ → ℚ) (target startT endT tol : ℚ)
    (htol : 0 ≤ tol)
    (H : ∀ p ∈ adjPairs (coarseGrid startT endT SCAN_STEP_HOURS),
      ((_wrap_diff (lon p.1) target < 0 ∧ 0 < _wrap_diff (lon p.2) target) ∨
       (0 < _wrap_diff (lon p.1) target ∧ _wrap_diff (lon p.2) target < 0)) →
      ∃ r c, 0 < r ∧ p.1 < c ∧ c < p.2 ∧
        (∀ t, p.1 ≤ t → t ≤ p.2 → _wrap_diff (lon t) target = r * (t - c)) ∧
        r * (p.2 - p.1) ≤ tol * 2 ^ 51) :
    ∀ h ∈ find_crossings_for_deg lon target startT endT,
      |_wrap_diff (lon h) target| ≤ tol := by
  intro h hmem
  unfold find_crossings_for_deg at hmem
  rw [List.mem_filterMap] at hmem
  obtain ⟨p, hp, hf⟩ := hmem
  dsimp only at hf
  by_cases hz : _wrap_diff (lon p.1) target = 0
  · rw [if_pos hz, Option.some.injEq] at hf
    subst hf
    rw [hz]
    simpa using htol
  · rw [if_neg hz] at hf
    by_cases hsc : (_wrap_diff (lon p.1) target < 0 ∧ 0 < _wrap_diff (lon p.2) target) ∨
        (0 < _wrap_diff (lon p.1) target ∧ _wrap_diff (lon p.2) target < 0)
    · rw [if_pos hsc, Option.some.injEq] at hf
      subst hf
      obtain ⟨r, c, hr, hc1, hc2, hlin, hrb⟩ := H p hp hsc
      refine (bisect_hit_close lon target r c p.1 p.2 hr hlin hc1 hc2).trans ?_
      rw [div_le_iff (by positivity : (0:ℚ) < 2 ^ 51)]
      linarith
    · rw [if_neg hsc] at hf
      cases hf

set_option maxRecDepth 8000 in
/-- C2 counterexample: on a uniformly moving longitude, the bracket
[4319, 4322] contains no crossing of target 0 — the sign change of the
wrapped difference there comes from the antipodal ±180° discontinuity —
yet the finder returns a hit from it, and that hit is more than 1 degree
away from the target (in fact about 180°). -/
theorem find_crossings_antipodal_spurious :
    ∃ h ∈ find_crossings_for_deg lonLin 0 4319 4324,
      1 < |_wrap_diff (lonLin h) 0| := by
  with_unfolding_all decide

set_option maxRecDepth 8000 in
/-- C2 witness: a uniformly moving longitude crossing 90° at t = 2160
inside the scan window [2150, 2170]; every hit returned is within 10⁻⁶
of the target in wrapped difference. -/
theorem find_crossings_genuine_tol_witness :
    ∃ h, h ∈ find_crossings_for_deg lonLin 90 2150 2170 ∧
      |_wrap_diff (lonLin h) 90| ≤ 1 / 1000000 := by
  have hpairs : adjPairs (coarseGrid 2150 2170 SCAN_STEP_HOURS) =
      [((2150:ℚ), (2153:ℚ)), (2153, 2156), (2156, 2159), (2159, 2162),
       (2162, 2165), (2165, 2168), (2168, 2170)] := by
    with_unfolding_all decide
  have hH : ∀ p ∈ adjPairs (coarseGrid 2150 2170 SCAN_STEP_HOURS),
      ((_wrap_diff (lonLin p.1) 90 < 0 ∧ 0 < _wrap_diff (lonLin p.2) 90) ∨
       (0 < _wrap_diff (lonLin p.1) 90 ∧ _wrap_diff (lonLin p.2) 90 < 0)) →
      ∃ r c, 0 < r ∧ p.1 < c ∧ c < p.2 ∧
        (∀ t, p.1 ≤ t → t ≤ p.2 → _wrap_diff (lonLin t) 90 = r * (t - c)) ∧
        r * (p.2 - p.1) ≤ (1 / 1000000) * 2 ^ 51 := by
    intro p hp hsc
    rw [hpairs] at hp
    fin_cases hp
    · exact absurd hsc (by with_unfolding_all decide)
    · exact absurd hsc (by with_unfolding_all decide)
    · exact absurd hsc (by with_unfolding_all decide)
    · refine ⟨1/24, 2160, by norm_num, ?_, ?_, ?_, ?_⟩
      · show (2159:ℚ) < 2160
        norm_num
      · show (2160:ℚ) < 2162
        norm_num
      · intro t ht1 ht2
        have ht1' : (2159:ℚ) ≤ t := ht1
        have ht2' : t ≤ (2162:ℚ) := ht2
        have hl : lonLin t = t / 24 := by
          unfold lonLin
          exact qmod_eq_self _ _ (by linarith) (by linarith)
        rw [hl, wrap_diff_small (t / 24) 90 (by linarith) (by linarith)]
        ring
      · show (1/24 : ℚ) * (2162 - 2159) ≤ 1 / 1000000 * 2 ^ 51
        norm_num
    · exact absurd hsc (by with_unfolding_all decide)
    · exact absurd hsc (by with_unfolding_all decide)
    · exact absurd hsc (by with_unfolding_all decide)
  have hne : find_crossings_for_deg lonLin 90 2150 2170 ≠ [] := by
    with_unfolding_all decide
  obtain ⟨a, t, hl⟩ : ∃ a t, find_crossings_for_deg lonLin 90 2150 2170 = a :: t := by
    cases hcase : find_crossings_for_deg lonLin 90 2150 2170 with
    | nil => exact absurd hcase hne
    | cons a t => exact ⟨a, t, rfl⟩
  have hmem : a ∈ find_crossings_for_deg lonLin 90 2150 2170 := by
    rw [hl]
    exact List.mem_cons_self a t
  exact ⟨a, hmem,
    find_crossings_genuine_tol lonLin 90 2150 2170 (1 / 1000000) (by norm_num) hH a hmem⟩
